import Mathlib

/-!
Verification of the CSS tokenizer (`src/tokenizer.rs`) of postcss-rs.

The tokenizer is embedded shallowly: the source text is a `List Char`
(the code indexes bytes and counts chars; on ASCII input, which is the
only well-defined regime per the design notes, the two coincide, so one
character per list element is faithful).  Machine `usize` values become
`Nat`; the `panic!` in `Tokenizer::unclosed` and the out-of-bounds
aborts of `Regex::find_at` / `usize` underflow become an `Except` error.
-/

/-- Mirrors `char_code_at`: byte at `n`, or NUL when out of range. -/
def char_code_at (s : List Char) (n : Nat) : Char :=
  if n ≥ s.length then '\x00' else s.getD n '\x00'

/-- Mirrors `sub_string`: `&s[start..]` when `end + 1 > s.len()`, else `&s[start..end]`. -/
def sub_string (s : List Char) (start fin : Nat) : List Char :=
  if fin + 1 > s.length then s.drop start else (s.take fin).drop start

/-- Generic forward scan: first index `j' ≥ j` (the list is `s.drop j`)
whose character satisfies `p`.  Underlies the `memchr` and regex-class
searches of the source. -/
def scan_idx (p : Char → Bool) : List Char → Nat → Option Nat
  | [], _ => none
  | c :: rest, j => if p c then some j else scan_idx p rest (j + 1)

/-- Mirrors `index_of_char` (memchr from `from_index`). -/
def index_of_char (s : List Char) (ch : Char) (i : Nat) : Option Nat :=
  scan_idx (fun c => c == ch) (s.drop i) i

/-- Scan for the two-byte sequence `*/`, both bytes inside the slice
starting at the scan position; mirrors `Finder::new("*/")`. -/
def comment_scan : List Char → Nat → Option Nat
  | c :: rest, j => if c = '*' ∧ rest.head? = some '/' then some j else comment_scan rest (j + 1)
  | [], _ => none

/-- Mirrors `index_of_end_comment`. -/
def index_of_end_comment (s : List Char) (i : Nat) : Option Nat :=
  comment_scan (s.drop i) i

/-- Character class of `RE_AT_END`:
`[\t\n\u{12}\r "#'()/;\[\\\]{}]`. -/
def re_at_end_char (c : Char) : Bool :=
  c == '\t' || c == '\n' || c == '\u0012' || c == '\r' || c == ' ' || c == '"' ||
  c == '#' || c == '\'' || c == '(' || c == ')' || c == '/' || c == ';' ||
  c == '[' || c == '\\' || c == ']' || c == '\x7b' || c == '\x7d'

/-- Mirrors `RE_AT_END.find_at(css, i)`, returning `mat.end()` (the regex
is a single-character class, so the end is the matched index plus one). -/
def re_at_end_search (s : List Char) (i : Nat) : Option Nat :=
  (scan_idx re_at_end_char (s.drop i) i).map (fun j => j + 1)

/-- Character class part of `RE_WORD_END`:
`[\t\n\u{12}\r !"#'():;@\[\\\]{}]`. -/
def re_word_end_char (c : Char) : Bool :=
  c == '\t' || c == '\n' || c == '\u0012' || c == '\r' || c == ' ' || c == '!' ||
  c == '"' || c == '#' || c == '\'' || c == '(' || c == ')' || c == ':' ||
  c == ';' || c == '@' || c == '[' || c == '\\' || c == ']' || c == '\x7b' ||
  c == '\x7d'

/-- Scan for `RE_WORD_END = [class]|/(?:\*)`; a class character matches one
byte (end = index + 1), a `/*` sequence matches two (end = index + 2). -/
def word_scan (s : List Char) : List Char → Nat → Option Nat
  | [], _ => none
  | c :: rest, j =>
    if re_word_end_char c then some (j + 1)
    else if c = '/' ∧ char_code_at s (j + 1) = '*' then some (j + 2)
    else word_scan s rest (j + 1)

/-- Mirrors `RE_WORD_END.find_at(css, i)`, returning `mat.end()`. -/
def re_word_end_search (s : List Char) (i : Nat) : Option Nat :=
  word_scan s (s.drop i) i

/-- Bad-content set of `RE_BAD_BRACKET = .[\n"'(/\\]` (second character). -/
def bad_bracket_char (c : Char) : Bool :=
  c == '\n' || c == '"' || c == '\'' || c == '(' || c == '/' || c == '\\'

/-- Mirrors `RE_BAD_BRACKET.is_match(content)`: some character that is not a
newline (`.` does not match `\n`) is immediately followed by a character of
the bad set. -/
def re_bad_bracket (content : List Char) : Bool :=
  (List.range content.length).any (fun i =>
    decide (i + 1 < content.length) &&
    !(char_code_at content i == '\n') &&
    bad_bracket_char (char_code_at content (i + 1)))

/-- Hex-digit class of `RE_HEX_ESCAPE = [\da-f]`. -/
def is_hex_escape (c : Char) : Bool :=
  c.isDigit || (decide ('a' ≤ c) && decide (c ≤ 'f'))

/-- Count of consecutive backslashes immediately preceding index `i`;
mirrors the backward `escape_pos` walk shared by the string and the raw
`url(` bracket loops. -/
def count_bs (s : List Char) : Nat → Nat
  | 0 => 0
  | j + 1 => if char_code_at s j = '\\' then count_bs s j + 1 else 0

/-- Whether the candidate terminator at index `i` is escaped (odd count). -/
def escaped_at (s : List Char) (i : Nat) : Bool :=
  count_bs s i % 2 == 1

/-- The shared unescaped-terminator loop of the string and raw-`url(`
branches: repeatedly find the next `quote` from `next + 1`, skipping
escaped candidates.  Fuel bounds the iteration count; each iteration
advances strictly, so `s.length + 1` fuel is always enough. -/
def close_search_fuel (s : List Char) (quote : Char) : Nat → Nat → Option Nat
  | 0, _ => none
  | f + 1, next =>
    match index_of_char s quote (next + 1) with
    | none => none
    | some i => if escaped_at s i then close_search_fuel s quote f i else some i

def close_search (s : List Char) (quote : Char) (next : Nat) : Option Nat :=
  close_search_fuel s quote (s.length + 1) next

/-- Whitespace-run loop body of the `space` branch: starting from the list
`s.drop j`, advance `j` while the character is space, newline, tab or the
FEED constant (the source's `FEED` is `'\u{12}'`; note the loop condition
does not include `\r`). -/
def is_space_cont (c : Char) : Bool :=
  c == ' ' || c == '\n' || c == '\t' || c == '\u0012'

def space_run_end (s : List Char) (i : Nat) : Nat :=
  match scan_idx (fun c => !is_space_cont c) (s.drop i) i with
  | some j => j
  | none => i + (s.drop i).length

/-- Backslash-run loop of the `BACKSLASH` branch: while the character after
`next` is a backslash, advance and flip `escape`.  The list argument is
`s.drop (next + 1)`. -/
def bs_loop : List Char → Nat → Bool → Nat × Bool
  | c :: rest, next, escape => if c = '\\' then bs_loop rest (next + 1) (!escape) else (next, escape)
  | [], next, escape => (next, escape)

/-- Hex-digit extension loop of the `BACKSLASH` branch: while the character
after `next` is a hex digit, advance.  The list argument is `s.drop (next + 1)`. -/
def hex_loop : List Char → Nat → Nat
  | c :: rest, next => if is_hex_escape c then hex_loop rest (next + 1) else next
  | [], next => next

/-- `Token(kind, content, pos, next)` of the source.  `content` is kept as a
character list (exact raw substring). -/
structure Token where
  kind : String
  content : List Char
  tpos : Option Nat
  tnext : Option Nat
deriving Repr, DecidableEq

/-- The `Tokenizer` state.  `buffer` and `returned` are LIFO stacks with
the top at the head (Rust pushes and pops at the `Vec` tail). -/
structure Tokenizer where
  css : List Char
  ignore : Bool
  current_token : Token
  length : Nat
  pos : Nat
  buffer : List Token
  returned : List Token
deriving Repr, DecidableEq

/-- Failure modes: `unclosed` mirrors the `panic!` of `Tokenizer::unclosed`
(construct kind and current position); `abort` mirrors the out-of-range
`Regex::find_at` start and the `usize` underflow of `mat.end() - 3`, which
stop the process without a token. -/
inductive TokError where
  | unclosed (what : String) (pos : Nat)
  | abort
deriving Repr, DecidableEq

/-- Mirrors `Tokenizer::new`. -/
def Tokenizer.new (css : List Char) (ignore_errors : Bool) : Tokenizer :=
  { css := css
    ignore := ignore_errors
    current_token := ⟨"", [], none, none⟩
    length := css.length
    pos := 0
    buffer := []
    returned := [] }

/-- Mirrors `Tokenizer::position`. -/
def Tokenizer.position (t : Tokenizer) : Nat := t.pos

/-- Mirrors `Tokenizer::end_of_file`. -/
def Tokenizer.end_of_file (t : Tokenizer) : Bool :=
  t.returned.isEmpty && decide (t.pos ≥ t.length)

/-- Mirrors `Tokenizer::back`. -/
def Tokenizer.back (t : Tokenizer) (token : Token) : Tokenizer :=
  { t with returned := token :: t.returned }

/-- Whitespace arm of the `match` in `next_token` (`NEWLINE | SPACE | TAB |
CR | FEED`): consume the run, emit a `space` token with no offsets.  The
final `self.pos += 1` of `next_token` is folded into each arm, hence
`(next - 1) + 1` here. -/
def space_token (t : Tokenizer) : Token × Tokenizer :=
  let next := space_run_end t.css (t.pos + 1)
  (⟨"space", (t.css.take next).drop t.pos, none, none⟩,
    { t with current_token := ⟨"space", (t.css.take next).drop t.pos, none, none⟩,
             pos := (next - 1) + 1 })

/-- Single-character structural arms (`[ ] \x7b \x7d : ; )`). -/
def simple_token (t : Tokenizer) (k : String) (c : Char) : Token × Tokenizer :=
  (⟨k, [c], some t.pos, none⟩,
    { t with current_token := ⟨k, [c], some t.pos, none⟩, pos := t.pos + 1 })

/-- Body of the `OPEN_PARENTHESES` arm after the buffer pop: `prev` is the
content of the popped token (empty when the buffer was empty) and `buf` the
remaining buffer. -/
def paren_core (t : Tokenizer) (ignore_unclosed : Bool) (prev : List Char)
    (buf : List Token) : Except TokError (Token × Tokenizer) :=
  let n := char_code_at t.css (t.pos + 1)
  if prev = ['u', 'r', 'l'] ∧ n ≠ '\'' ∧ n ≠ '"' ∧ n ≠ ' ' ∧ n ≠ '\n' ∧
      n ≠ '\t' ∧ n ≠ '\u0012' ∧ n ≠ '\r' then
    match close_search t.css ')' t.pos with
    | some i =>
      .ok (⟨"brackets", sub_string t.css t.pos (i + 1), some t.pos, some i⟩,
        { t with
            current_token := ⟨"brackets", sub_string t.css t.pos (i + 1), some t.pos, some i⟩,
            buffer := buf, pos := i + 1 })
    | none =>
      if t.ignore = true ∨ ignore_unclosed = true then
        .ok (⟨"brackets", sub_string t.css t.pos (t.pos + 1), some t.pos, some t.pos⟩,
          { t with
              current_token :=
                ⟨"brackets", sub_string t.css t.pos (t.pos + 1), some t.pos, some t.pos⟩,
              buffer := buf, pos := t.pos + 1 })
      else .error (.unclosed "bracket" t.pos)
  else
    match index_of_char t.css ')' (t.pos + 1) with
    | some i =>
      if re_bad_bracket ((t.css.take (i + 1)).drop t.pos) then
        .ok (⟨"(", ['('], some t.pos, none⟩,
          { t with current_token := ⟨"(", ['('], some t.pos, none⟩,
                   buffer := buf, pos := t.pos + 1 })
      else
        .ok (⟨"brackets", (t.css.take (i + 1)).drop t.pos, some t.pos, some i⟩,
          { t with
              current_token := ⟨"brackets", (t.css.take (i + 1)).drop t.pos, some t.pos, some i⟩,
              buffer := buf, pos := i + 1 })
    | none =>
      .ok (⟨"(", ['('], some t.pos, none⟩,
        { t with current_token := ⟨"(", ['('], some t.pos, none⟩,
                 buffer := buf, pos := t.pos + 1 })

/-- `OPEN_PARENTHESES` arm: pop the buffer (always, whatever the outcome). -/
def paren_token (t : Tokenizer) (ignore_unclosed : Bool) : Except TokError (Token × Tokenizer) :=
  match t.buffer with
  | b :: rest => paren_core t ignore_unclosed b.content rest
  | [] => paren_core t ignore_unclosed [] []

/-- `SINGLE_QUOTE | DOUBLE_QUOTE` arm. -/
def string_token (t : Tokenizer) (ignore_unclosed : Bool) (quote : Char) :
    Except TokError (Token × Tokenizer) :=
  match close_search t.css quote t.pos with
  | some i =>
    .ok (⟨"string", sub_string t.css t.pos (i + 1), some t.pos, some i⟩,
      { t with current_token := ⟨"string", sub_string t.css t.pos (i + 1), some t.pos, some i⟩,
               pos := i + 1 })
  | none =>
    if t.ignore = true ∨ ignore_unclosed = true then
      .ok (⟨"string", sub_string t.css t.pos (t.pos + 1 + 1), some t.pos, some (t.pos + 1)⟩,
        { t with
            current_token :=
              ⟨"string", sub_string t.css t.pos (t.pos + 1 + 1), some t.pos, some (t.pos + 1)⟩,
            pos := t.pos + 1 + 1 })
    else .error (.unclosed "string" t.pos)

/-- `AT` arm. -/
def at_token (t : Tokenizer) : Token × Tokenizer :=
  let next :=
    match re_at_end_search t.css (t.pos + 1) with
    | some mend => mend - 2
    | none => t.length - 1
  (⟨"at-word", sub_string t.css t.pos (next + 1), some t.pos, some next⟩,
    { t with
        current_token := ⟨"at-word", sub_string t.css t.pos (next + 1), some t.pos, some next⟩,
        pos := next + 1 })

/-- `BACKSLASH` arm. -/
def backslash_token (t : Tokenizer) : Token × Tokenizer :=
  let r := bs_loop (t.css.drop (t.pos + 1)) t.pos true
  let code := char_code_at t.css (r.1 + 1)
  let next :=
    if r.2 = true ∧ code ≠ '/' ∧ code ≠ ' ' ∧ code ≠ '\n' ∧ code ≠ '\t' ∧
        code ≠ '\r' ∧ code ≠ '\u0012' then
      let n2 := r.1 + 1
      if (sub_string t.css n2 (n2 + 1)).any is_hex_escape then
        let n3 := hex_loop (t.css.drop (n2 + 1)) n2
        if char_code_at t.css (n3 + 1) = ' ' then n3 + 1 else n3
      else n2
    else r.1
  (⟨"word", sub_string t.css t.pos (next + 1), some t.pos, some next⟩,
    { t with
        current_token := ⟨"word", sub_string t.css t.pos (next + 1), some t.pos, some next⟩,
        pos := next + 1 })

/-- Shared tail of the comment half: build the `comment` token ending at `nx`. -/
def comment_finish (t : Tokenizer) (nx : Nat) : Except TokError (Token × Tokenizer) :=
  .ok (⟨"comment", sub_string t.css t.pos (nx + 1), some t.pos, some nx⟩,
    { t with current_token := ⟨"comment", sub_string t.css t.pos (nx + 1), some t.pos, some nx⟩,
             pos := nx + 1 })

/-- Comment half of the default arm (`/` followed by `*`). -/
def comment_token (t : Tokenizer) (ignore_unclosed : Bool) :
    Except TokError (Token × Tokenizer) :=
  match index_of_end_comment t.css (t.pos + 2) with
  | some i => comment_finish t (i + 1)
  | none =>
    if t.ignore = false ∧ ignore_unclosed = false then .error (.unclosed "comment" t.pos)
    else comment_finish t t.length

/-- Shared tail of the generic-word half of the default arm: build the
`word` token ending at `next` and push it onto the buffer. -/
def word_finish (t : Tokenizer) (next : Nat) : Except TokError (Token × Tokenizer) :=
  .ok (⟨"word", sub_string t.css t.pos (next + 1), some t.pos, some next⟩,
    { t with
        current_token := ⟨"word", sub_string t.css t.pos (next + 1), some t.pos, some next⟩,
        buffer := ⟨"word", sub_string t.css t.pos (next + 1), some t.pos, some next⟩ :: t.buffer,
        pos := next + 1 })

/-- Generic-word half of the default arm.  `Regex::find_at` requires
`start ≤ haystack.len()`, so a scan started past the end stops the process;
likewise `mat.end() - 3` underflows `usize` when the match end is 2. -/
def word_token (t : Tokenizer) : Except TokError (Token × Tokenizer) :=
  if t.pos + 1 > t.css.length then .error .abort
  else
    match re_word_end_search t.css (t.pos + 1) with
    | some mend =>
      if char_code_at t.css (mend - 2) = '/' then
        if mend < 3 then .error .abort else word_finish t (mend - 3)
      else word_finish t (mend - 2)
    | none => word_finish t (t.length - 1)

/-- Default (`_`) arm of the `match`. -/
def comment_or_word (t : Tokenizer) (ignore_unclosed : Bool) :
    Except TokError (Token × Tokenizer) :=
  if char_code_at t.css t.pos = '/' ∧ char_code_at t.css (t.pos + 1) = '*' then
    comment_token t ignore_unclosed
  else word_token t

/-- Dispatch on the character at the cursor; body of `next_token` once the
pushback list is known to be empty. -/
def next_fresh (t : Tokenizer) (ignore_unclosed : Bool) :
    Except TokError (Token × Tokenizer) :=
  if char_code_at t.css t.pos = '\n' ∨ char_code_at t.css t.pos = ' ' ∨
      char_code_at t.css t.pos = '\t' ∨ char_code_at t.css t.pos = '\r' ∨
      char_code_at t.css t.pos = '\u0012' then
    .ok (space_token t)
  else if char_code_at t.css t.pos = '[' then .ok (simple_token t "[" '[')
  else if char_code_at t.css t.pos = ']' then .ok (simple_token t "]" ']')
  else if char_code_at t.css t.pos = '\x7b' then .ok (simple_token t "\x7b" '\x7b')
  else if char_code_at t.css t.pos = '\x7d' then .ok (simple_token t "\x7d" '\x7d')
  else if char_code_at t.css t.pos = ':' then .ok (simple_token t ":" ':')
  else if char_code_at t.css t.pos = ';' then .ok (simple_token t ";" ';')
  else if char_code_at t.css t.pos = ')' then .ok (simple_token t ")" ')')
  else if char_code_at t.css t.pos = '(' then paren_token t ignore_unclosed
  else if char_code_at t.css t.pos = '\'' ∨ char_code_at t.css t.pos = '"' then
    string_token t ignore_unclosed
      (if char_code_at t.css t.pos = '\'' then '\'' else '"')
  else if char_code_at t.css t.pos = '@' then .ok (at_token t)
  else if char_code_at t.css t.pos = '\\' then .ok (backslash_token t)
  else comment_or_word t ignore_unclosed

/-- Mirrors `Tokenizer::next_token`: replay the most recently pushed-back
token if any, otherwise scan fresh. -/
def next_token (t : Tokenizer) (ignore_unclosed : Bool) :
    Except TokError (Token × Tokenizer) :=
  match t.returned with
  | tok :: rest => .ok (tok, { t with returned := rest })
  | [] => next_fresh t ignore_unclosed

/-- Drive the tokenizer: collect the tokens of repeated `next_token` calls
until `end_of_file`, or `none` when the fuel runs out first or a call
fails. -/
def tokenize_fuel : Nat → Tokenizer → Bool → Option (List Token)
  | 0, t, _ => if t.end_of_file then some [] else none
  | fuel + 1, t, iu =>
    if t.end_of_file then some []
    else
      match next_token t iu with
      | .error _ => none
      | .ok (tok, t') => (tokenize_fuel fuel t' iu).map (tok :: ·)

/-- Run exactly `n` `next_token` calls, returning the final state. -/
def run_steps : Nat → Tokenizer → Bool → Option Tokenizer
  | 0, t, _ => some t
  | n + 1, t, iu =>
    match next_token t iu with
    | .error _ => none
    | .ok (_, t') => run_steps n t' iu

/-- Concatenation of the contents of a token list. -/
def concat_contents : List Token → List Char
  | [] => []
  | tok :: ts => tok.content ++ concat_contents ts

/-- The condition under which `next_fresh` reaches the generic-word branch:
the character at the cursor matches none of the dispatch arms and does not
begin a `/*` comment. -/
def generic_word_start (t : Tokenizer) : Prop :=
  ¬(char_code_at t.css t.pos = '\n' ∨ char_code_at t.css t.pos = ' ' ∨
    char_code_at t.css t.pos = '\t' ∨ char_code_at t.css t.pos = '\r' ∨
    char_code_at t.css t.pos = '\u0012') ∧
  char_code_at t.css t.pos ≠ '[' ∧ char_code_at t.css t.pos ≠ ']' ∧
  char_code_at t.css t.pos ≠ '\x7b' ∧ char_code_at t.css t.pos ≠ '\x7d' ∧
  char_code_at t.css t.pos ≠ ':' ∧ char_code_at t.css t.pos ≠ ';' ∧
  char_code_at t.css t.pos ≠ ')' ∧ char_code_at t.css t.pos ≠ '(' ∧
  ¬(char_code_at t.css t.pos = '\'' ∨ char_code_at t.css t.pos = '"') ∧
  char_code_at t.css t.pos ≠ '@' ∧ char_code_at t.css t.pos ≠ '\\' ∧
  ¬(char_code_at t.css t.pos = '/' ∧ char_code_at t.css (t.pos + 1) = '*')

/-- The scanner state after the `word` token `url` has been scanned from
the source `url(a` in lenient mode: the cursor sits on the `(` and the
context buffer holds the `url` word token.  (This is the state reached by
one `next_token` call on a fresh scanner over `url(a`.) -/
def c8_state : Tokenizer :=
  ⟨"url(a".data, true, ⟨"word", "url".data, some 0, some 2⟩, 5, 3,
    [⟨"word", "url".data, some 0, some 2⟩], []⟩

/-- What one successful fresh (non-replay) scan step guarantees: the
token's content is exactly the source text between the old and the new
cursor, the cursor never moves backwards, and the source text, length,
mode and pushback list are untouched. -/
def StepOk (t : Tokenizer) (tok : Token) (t' : Tokenizer) : Prop :=
  tok.content = (t.css.take t'.pos).drop t.pos ∧ t.pos ≤ t'.pos ∧
  t'.returned = t.returned ∧ t'.css = t.css ∧ t'.length = t.length ∧
  t'.ignore = t.ignore

/-! ## Helper lemmas -/

theorem char_code_at_pos_lt {s : List Char} {n : Nat} {c : Char}
    (h : char_code_at s n = c) (hc : c ≠ '\x00') : n < s.length := by
  by_contra hn
  rw [char_code_at, if_pos (Nat.le_of_not_lt hn)] at h
  exact hc h.symm

theorem char_code_at_eq_getElem {s : List Char} {n : Nat} (h : n < s.length) :
    char_code_at s n = s[n] := by
  rw [char_code_at, if_neg (Nat.not_le.mpr h)]
  simp [List.getD_eq_getElem?_getD, List.getElem?_eq_getElem h]

theorem char_code_at_of_ge {s : List Char} {n : Nat} (h : s.length ≤ n) :
    char_code_at s n = '\x00' := by
  rw [char_code_at, if_pos h]

theorem take_drop_append (s : List Char) (a b : Nat) (hab : a ≤ b) :
    (s.take b).drop a ++ s.drop b = s.drop a := by
  have h1 : (s.drop a).take (b - a) = (s.take b).drop a := by
    rw [List.take_drop, Nat.add_sub_cancel' hab]
  have h2 : (s.drop a).drop (b - a) = s.drop b := by
    rw [List.drop_drop, Nat.add_sub_cancel' hab]
  rw [← h1, ← h2, List.take_append_drop]

theorem sub_string_eq (s : List Char) (a b : Nat) :
    sub_string s a b = (s.take b).drop a := by
  rw [sub_string]
  split
  · rw [List.take_of_length_le (by omega)]
  · rfl

theorem take_drop_singleton {s : List Char} {a : Nat} (h : a < s.length) :
    (s.take (a + 1)).drop a = [char_code_at s a] := by
  rw [← List.take_drop a 1 s, List.drop_eq_getElem_cons h, List.take_succ_cons,
    List.take_zero, char_code_at_eq_getElem h]

theorem scan_idx_ge (p : Char → Bool) :
    ∀ (l : List Char) (j e : Nat), scan_idx p l j = some e → j ≤ e := by
  intro l
  induction l with
  | nil => intro j e h; simp [scan_idx] at h
  | cons c rest ih =>
    intro j e h
    rw [scan_idx] at h
    split at h
    · injection h with h
      omega
    · exact Nat.le_of_succ_le (ih (j + 1) e h)

theorem scan_idx_lt (p : Char → Bool) :
    ∀ (l : List Char) (j e : Nat), scan_idx p l j = some e → e < j + l.length := by
  intro l
  induction l with
  | nil => intro j e h; simp [scan_idx] at h
  | cons c rest ih =>
    intro j e h
    rw [scan_idx] at h
    split at h
    · injection h with h
      simp only [List.length_cons]
      omega
    · have := ih (j + 1) e h
      simp only [List.length_cons]
      omega

theorem scan_idx_drop_found (p : Char → Bool) (s : List Char) :
    ∀ (n j e : Nat), s.length - j ≤ n → scan_idx p (s.drop j) j = some e →
      p (char_code_at s e) = true := by
  intro n
  induction n with
  | zero =>
    intro j e hn h
    rw [List.drop_eq_nil_of_le (by omega)] at h
    simp [scan_idx] at h
  | succ n ih =>
    intro j e hn h
    by_cases hj : j < s.length
    · rw [List.drop_eq_getElem_cons hj, scan_idx] at h
      split at h
      next hp =>
        injection h with h
        rw [← h, char_code_at_eq_getElem hj]
        exact hp
      next hp => exact ih (j + 1) e (by omega) h
    · rw [List.drop_eq_nil_of_le (by omega)] at h
      simp [scan_idx] at h

theorem scan_idx_drop_mid (p : Char → Bool) (s : List Char) :
    ∀ (n j e : Nat), s.length - j ≤ n → scan_idx p (s.drop j) j = some e →
      ∀ k, j ≤ k → k < e → p (char_code_at s k) = false := by
  intro n
  induction n with
  | zero =>
    intro j e hn h
    rw [List.drop_eq_nil_of_le (by omega)] at h
    simp [scan_idx] at h
  | succ n ih =>
    intro j e hn h k hjk hke
    by_cases hj : j < s.length
    · rw [List.drop_eq_getElem_cons hj, scan_idx] at h
      split at h
      next hp =>
        injection h with h
        omega
      next hp =>
        rcases Nat.eq_or_lt_of_le hjk with heq | hlt
        · rw [← heq, char_code_at_eq_getElem hj]
          simpa using hp
        · exact ih (j + 1) e (by omega) h k hlt hke
    · rw [List.drop_eq_nil_of_le (by omega)] at h
      simp [scan_idx] at h

theorem scan_idx_drop_none (p : Char → Bool) (s : List Char) :
    ∀ (n j : Nat), s.length - j ≤ n → scan_idx p (s.drop j) j = none →
      ∀ k, j ≤ k → k < s.length → p (char_code_at s k) = false := by
  intro n
  induction n with
  | zero =>
    intro j hn h k hjk hk
    omega
  | succ n ih =>
    intro j hn h k hjk hk
    by_cases hj : j < s.length
    · rw [List.drop_eq_getElem_cons hj, scan_idx] at h
      split at h
      next hp => simp at h
      next hp =>
        rcases Nat.eq_or_lt_of_le hjk with heq | hlt
        · rw [← heq, char_code_at_eq_getElem hj]
          simpa using hp
        · exact ih (j + 1) (by omega) h k hlt hk
    · omega

theorem index_of_char_ge {s : List Char} {ch : Char} {i e : Nat}
    (h : index_of_char s ch i = some e) : i ≤ e :=
  scan_idx_ge _ _ _ _ h

theorem index_of_char_lt {s : List Char} {ch : Char} {i e : Nat}
    (h : index_of_char s ch i = some e) : e < s.length := by
  by_cases hi : i ≤ s.length
  · have := scan_idx_lt _ _ _ _ h
    have hlen := List.length_drop i s
    omega
  · rw [index_of_char, List.drop_eq_nil_of_le (by omega)] at h
    simp [scan_idx] at h

theorem comment_scan_ge :
    ∀ (l : List Char) (j e : Nat), comment_scan l j = some e → j ≤ e := by
  intro l
  induction l with
  | nil => intro j e h; simp [comment_scan] at h
  | cons c rest ih =>
    intro j e h
    rw [comment_scan] at h
    split at h
    · injection h with h
      omega
    · exact Nat.le_of_succ_le (ih (j + 1) e h)

theorem word_scan_ge (s : List Char) :
    ∀ (l : List Char) (j e : Nat), word_scan s l j = some e → j + 1 ≤ e := by
  intro l
  induction l with
  | nil => intro j e h; simp [word_scan] at h
  | cons c rest ih =>
    intro j e h
    rw [word_scan] at h
    split at h
    · injection h with h
      omega
    · split at h
      · injection h with h
        omega
      · have := ih (j + 1) e h
        omega

theorem close_search_fuel_ge (s : List Char) (q : Char) :
    ∀ (f next i : Nat), close_search_fuel s q f next = some i → next + 1 ≤ i := by
  intro f
  induction f with
  | zero => intro next i h; simp [close_search_fuel] at h
  | succ f ih =>
    intro next i h
    rw [close_search_fuel] at h
    split at h
    · exact absurd h (by simp)
    next j hj =>
      split at h
      · have h1 := index_of_char_ge hj
        have h2 := ih j i h
        omega
      · injection h with h
        have := index_of_char_ge hj
        omega

theorem close_search_ge {s : List Char} {q : Char} {next i : Nat}
    (h : close_search s q next = some i) : next + 1 ≤ i :=
  close_search_fuel_ge s q _ next i h

theorem close_search_none {s : List Char} {q : Char} {next : Nat}
    (h : index_of_char s q (next + 1) = none) : close_search s q next = none := by
  rw [close_search, close_search_fuel, h]

theorem bs_loop_ge :
    ∀ (l : List Char) (next : Nat) (e : Bool), next ≤ (bs_loop l next e).1 := by
  intro l
  induction l with
  | nil => intro next e; simp [bs_loop]
  | cons c rest ih =>
    intro next e
    rw [bs_loop]
    split
    · exact Nat.le_of_succ_le (ih (next + 1) (!e))
    · exact Nat.le_refl next

theorem hex_loop_ge :
    ∀ (l : List Char) (next : Nat), next ≤ hex_loop l next := by
  intro l
  induction l with
  | nil => intro next; simp [hex_loop]
  | cons c rest ih =>
    intro next
    rw [hex_loop]
    split
    · exact Nat.le_of_succ_le (ih (next + 1))
    · exact Nat.le_refl next

theorem space_run_end_ge (s : List Char) (i : Nat) : i ≤ space_run_end s i := by
  rw [space_run_end]
  split
  next j hj => exact scan_idx_ge _ _ _ _ hj
  next => omega

theorem space_run_end_cont (s : List Char) (i : Nat) :
    ∀ k, i ≤ k → k < space_run_end s i → is_space_cont (char_code_at s k) = true := by
  intro k hik hk
  rw [space_run_end] at hk
  split at hk
  next j hj =>
    have := scan_idx_drop_mid _ s (s.length - i) i j (Nat.le_refl _) hj k hik hk
    simpa using this
  next hj =>
    have hlen := List.length_drop i s
    have hks : k < s.length := by omega
    have := scan_idx_drop_none _ s (s.length - i) i (Nat.le_refl _) hj k hik hks
    simpa using this

theorem space_run_end_stop (s : List Char) (i : Nat) :
    is_space_cont (char_code_at s (space_run_end s i)) = false := by
  rw [space_run_end]
  split
  next j hj =>
    have := scan_idx_drop_found _ s (s.length - i) i j (Nat.le_refl _) hj
    simpa using this
  next hj =>
    have hlen := List.length_drop i s
    have : s.length ≤ i + (s.drop i).length := by omega
    rw [char_code_at_of_ge this]
    rfl


/-! ## Per-branch step lemmas -/

theorem stepok_takedrop (t : Tokenizer) (k : String) (p2 n2 : Option Nat) (ct : Token)
    (P : Nat) (buf : List Token) (hP : t.pos ≤ P) :
    StepOk t ⟨k, (t.css.take P).drop t.pos, p2, n2⟩
      ⟨t.css, t.ignore, ct, t.length, P, buf, t.returned⟩ :=
  ⟨rfl, hP, rfl, rfl, rfl, rfl⟩

theorem stepok_gen (t : Tokenizer) (k : String) (p2 n2 : Option Nat) (ct : Token)
    (P : Nat) (buf : List Token) (hP : t.pos ≤ P) :
    StepOk t ⟨k, sub_string t.css t.pos P, p2, n2⟩
      ⟨t.css, t.ignore, ct, t.length, P, buf, t.returned⟩ := by
  refine ⟨?_, hP, rfl, rfl, rfl, rfl⟩
  exact sub_string_eq t.css t.pos P

theorem stepok_single (t : Tokenizer) (k : String) (c : Char) (n2 : Option Nat) (ct : Token)
    (buf : List Token) (hc : char_code_at t.css t.pos = c) (hc0 : c ≠ '\x00') :
    StepOk t ⟨k, [c], some t.pos, n2⟩
      ⟨t.css, t.ignore, ct, t.length, t.pos + 1, buf, t.returned⟩ := by
  refine ⟨?_, Nat.le_succ _, rfl, rfl, rfl, rfl⟩
  show [c] = (t.css.take (t.pos + 1)).drop t.pos
  rw [take_drop_singleton (char_code_at_pos_lt hc hc0), hc]

theorem step_space (t : Tokenizer) : StepOk t (space_token t).1 (space_token t).2 := by
  have hge := space_run_end_ge t.css (t.pos + 1)
  simp only [space_token]
  have hpos : space_run_end t.css (t.pos + 1) - 1 + 1 = space_run_end t.css (t.pos + 1) := by
    omega
  rw [hpos]
  exact stepok_takedrop t "space" none none _ _ _ (by omega)

theorem step_simple (t : Tokenizer) (k : String) (c : Char)
    (hc : char_code_at t.css t.pos = c) (hc0 : c ≠ '\x00') :
    StepOk t (simple_token t k c).1 (simple_token t k c).2 := by
  simp only [simple_token]
  exact stepok_single t k c none _ _ hc hc0

theorem step_paren_core (t : Tokenizer) (iu : Bool) (prev : List Char)
    (buf : List Token) (tok : Token) (t' : Tokenizer)
    (hc : char_code_at t.css t.pos = '(')
    (h : paren_core t iu prev buf = .ok (tok, t')) : StepOk t tok t' := by
  simp only [paren_core] at h
  split at h
  · split at h
    next i hi =>
      have hge := close_search_ge hi
      injection h with h
      injection h with htok hstate
      subst htok hstate
      exact stepok_gen t "brackets" _ _ _ (i + 1) buf (by omega)
    next hi =>
      split at h
      · injection h with h
        injection h with htok hstate
        subst htok hstate
        exact stepok_gen t "brackets" _ _ _ (t.pos + 1) buf (by omega)
      · exact absurd h (by simp)
  · split at h
    next i hi =>
      have hge := index_of_char_ge hi
      split at h
      · injection h with h
        injection h with htok hstate
        subst htok hstate
        exact stepok_single t "(" '(' none _ _ hc (by decide)
      · injection h with h
        injection h with htok hstate
        subst htok hstate
        exact stepok_takedrop t "brackets" _ _ _ (i + 1) buf (by omega)
    next hi =>
      injection h with h
      injection h with htok hstate
      subst htok hstate
      exact stepok_single t "(" '(' none _ _ hc (by decide)

theorem step_string (t : Tokenizer) (iu : Bool) (q : Char) (tok : Token) (t' : Tokenizer)
    (h : string_token t iu q = .ok (tok, t')) : StepOk t tok t' := by
  simp only [string_token] at h
  split at h
  next i hi =>
    have hge := close_search_ge hi
    injection h with h
    injection h with htok hstate
    subst htok hstate
    exact stepok_gen t "string" _ _ _ (i + 1) t.buffer (by omega)
  next hi =>
    split at h
    · injection h with h
      injection h with htok hstate
      subst htok hstate
      exact stepok_gen t "string" _ _ _ (t.pos + 1 + 1) t.buffer (by omega)
    · exact absurd h (by simp)

theorem step_at (t : Tokenizer) (hc : char_code_at t.css t.pos = '@')
    (hl : t.length = t.css.length) :
    StepOk t (at_token t).1 (at_token t).2 := by
  have hlt := char_code_at_pos_lt hc (by decide)
  simp only [at_token]
  split
  next mend hm =>
    rw [re_at_end_search, Option.map_eq_some'] at hm
    obtain ⟨j, hj, rfl⟩ := hm
    have hge := scan_idx_ge _ _ _ _ hj
    exact stepok_gen t "at-word" _ _ _ (j + 1 - 2 + 1) t.buffer (by omega)
  next hm =>
    exact stepok_gen t "at-word" _ _ _ (t.length - 1 + 1) t.buffer (by omega)

theorem step_backslash (t : Tokenizer) :
    StepOk t (backslash_token t).1 (backslash_token t).2 := by
  have hbs := bs_loop_ge (t.css.drop (t.pos + 1)) t.pos true
  simp only [backslash_token]
  split
  · split
    · have hhex := hex_loop_ge
        (t.css.drop ((bs_loop (t.css.drop (t.pos + 1)) t.pos true).1 + 1 + 1))
        ((bs_loop (t.css.drop (t.pos + 1)) t.pos true).1 + 1)
      split
      · exact stepok_gen t "word" _ _ _ _ t.buffer (by omega)
      · exact stepok_gen t "word" _ _ _ _ t.buffer (by omega)
    · exact stepok_gen t "word" _ _ _ _ t.buffer (by omega)
  · exact stepok_gen t "word" _ _ _ _ t.buffer (by omega)

theorem step_comment (t : Tokenizer) (iu : Bool) (tok : Token) (t' : Tokenizer)
    (hc : char_code_at t.css t.pos = '/') (hl : t.length = t.css.length)
    (h : comment_token t iu = .ok (tok, t')) : StepOk t tok t' := by
  have hlt := char_code_at_pos_lt hc (by decide)
  simp only [comment_token] at h
  split at h
  next i hi =>
    have hge := comment_scan_ge _ _ _ hi
    simp only [comment_finish] at h
    injection h with h
    injection h with htok hstate
    subst htok hstate
    exact stepok_gen t "comment" _ _ _ (i + 1 + 1) t.buffer (by omega)
  next hi =>
    split at h
    · exact absurd h (by simp)
    · simp only [comment_finish] at h
      injection h with h
      injection h with htok hstate
      subst htok hstate
      exact stepok_gen t "comment" _ _ _ (t.length + 1) t.buffer (by omega)

theorem step_word (t : Tokenizer) (tok : Token) (t' : Tokenizer)
    (hl : t.length = t.css.length)
    (h : word_token t = .ok (tok, t')) : StepOk t tok t' := by
  simp only [word_token] at h
  split at h
  · exact absurd h (by simp)
  next hple =>
    split at h
    next mend hm =>
      rw [re_word_end_search] at hm
      have hge := word_scan_ge t.css _ _ _ hm
      split at h
      · split at h
        · exact absurd h (by simp)
        next h3 =>
          simp only [word_finish] at h
          injection h with h
          injection h with htok hstate
          subst htok hstate
          exact stepok_gen t "word" _ _ _ (mend - 3 + 1) _ (by omega)
      · simp only [word_finish] at h
        injection h with h
        injection h with htok hstate
        subst htok hstate
        exact stepok_gen t "word" _ _ _ (mend - 2 + 1) _ (by omega)
    next hm =>
      simp only [word_finish] at h
      injection h with h
      injection h with htok hstate
      subst htok hstate
      exact stepok_gen t "word" _ _ _ (t.length - 1 + 1) _ (by omega)


/-- With an empty pushback list, `next_token` is the fresh dispatch. -/
theorem next_token_of_empty (t : Tokenizer) (iu : Bool) (hr : t.returned = []) :
    next_token t iu = next_fresh t iu := by
  rw [next_token, hr]



set_option maxHeartbeats 2000000 in
/-- A successful fresh `next_token` call (empty pushback list) satisfies the
single-step contract `StepOk`. -/
theorem next_token_spec (t : Tokenizer) (iu : Bool) (tok : Token) (t' : Tokenizer)
    (hr : t.returned = []) (hl : t.length = t.css.length)
    (h : next_token t iu = .ok (tok, t')) : StepOk t tok t' := by
  rw [next_token_of_empty t iu hr, next_fresh] at h
  by_cases h1 : char_code_at t.css t.pos = '\n' ∨ char_code_at t.css t.pos = ' ' ∨ char_code_at t.css t.pos = '\t' ∨ char_code_at t.css t.pos = '\r' ∨ char_code_at t.css t.pos = '\u0012'
  · rw [if_pos h1] at h
    injection h with h
    injection h with htok hstate
    subst htok hstate
    exact step_space t
  · rw [if_neg h1] at h
    by_cases h2 : char_code_at t.css t.pos = '['
    · rw [if_pos h2] at h
      injection h with h
      injection h with htok hstate
      subst htok hstate
      exact step_simple t "[" '[' h2 (by decide)
    · rw [if_neg h2] at h
      by_cases h3 : char_code_at t.css t.pos = ']'
      · rw [if_pos h3] at h
        injection h with h
        injection h with htok hstate
        subst htok hstate
        exact step_simple t "]" ']' h3 (by decide)
      · rw [if_neg h3] at h
        by_cases h4 : char_code_at t.css t.pos = '\x7b'
        · rw [if_pos h4] at h
          injection h with h
          injection h with htok hstate
          subst htok hstate
          exact step_simple t "\x7b" '\x7b' h4 (by decide)
        · rw [if_neg h4] at h
          by_cases h5 : char_code_at t.css t.pos = '\x7d'
          · rw [if_pos h5] at h
            injection h with h
            injection h with htok hstate
            subst htok hstate
            exact step_simple t "\x7d" '\x7d' h5 (by decide)
          · rw [if_neg h5] at h
            by_cases h6 : char_code_at t.css t.pos = ':'
            · rw [if_pos h6] at h
              injection h with h
              injection h with htok hstate
              subst htok hstate
              exact step_simple t ":" ':' h6 (by decide)
            · rw [if_neg h6] at h
              by_cases h7 : char_code_at t.css t.pos = ';'
              · rw [if_pos h7] at h
                injection h with h
                injection h with htok hstate
                subst htok hstate
                exact step_simple t ";" ';' h7 (by decide)
              · rw [if_neg h7] at h
                by_cases h8 : char_code_at t.css t.pos = ')'
                · rw [if_pos h8] at h
                  injection h with h
                  injection h with htok hstate
                  subst htok hstate
                  exact step_simple t ")" ')' h8 (by decide)
                · rw [if_neg h8] at h
                  by_cases h9 : char_code_at t.css t.pos = '('
                  · rw [if_pos h9] at h
                    rw [paren_token] at h
                    split at h
                    next b rest hb => exact step_paren_core t iu b.content rest tok t' h9 h
                    next hb => exact step_paren_core t iu [] [] tok t' h9 h
                  · rw [if_neg h9] at h
                    by_cases h10 : char_code_at t.css t.pos = '\'' ∨ char_code_at t.css t.pos = '"'
                    · rw [if_pos h10] at h
                      exact step_string t iu _ tok t' h
                    · rw [if_neg h10] at h
                      by_cases h11 : char_code_at t.css t.pos = '@'
                      · rw [if_pos h11] at h
                        injection h with h
                        injection h with htok hstate
                        subst htok hstate
                        exact step_at t h11 hl
                      · rw [if_neg h11] at h
                        by_cases h12 : char_code_at t.css t.pos = '\\'
                        · rw [if_pos h12] at h
                          injection h with h
                          injection h with htok hstate
                          subst htok hstate
                          exact step_backslash t
                        · rw [if_neg h12] at h
                          rw [comment_or_word] at h
                          split at h
                          next hcw => exact step_comment t iu tok t' hcw.1 hl h
                          next hcw => exact step_word t tok t' hl h

/-- Iterated losslessness: whenever the driver reaches `end_of_file` within
its fuel, the concatenated token contents are exactly the unscanned suffix
of the source. -/
theorem tokenize_fuel_content :
    ∀ (fuel : Nat) (t : Tokenizer) (iu : Bool) (ts : List Token),
      t.returned = [] → t.length = t.css.length →
      tokenize_fuel fuel t iu = some ts →
      concat_contents ts = t.css.drop t.pos := by
  intro fuel
  induction fuel with
  | zero =>
    intro t iu ts hr hl h
    rw [tokenize_fuel] at h
    split at h
    next heof =>
      injection h with h
      subst h
      rw [Tokenizer.end_of_file] at heof
      simp only [Bool.and_eq_true, decide_eq_true_eq] at heof
      rw [concat_contents, List.drop_eq_nil_of_le (by omega)]
    next heof => exact absurd h (by simp)
  | succ fuel ih =>
    intro t iu ts hr hl h
    rw [tokenize_fuel] at h
    split at h
    next heof =>
      injection h with h
      subst h
      rw [Tokenizer.end_of_file] at heof
      simp only [Bool.and_eq_true, decide_eq_true_eq] at heof
      rw [concat_contents, List.drop_eq_nil_of_le (by omega)]
    next heof =>
      split at h
      · exact absurd h (by simp)
      next tok t2 hnt =>
        rw [Option.map_eq_some'] at h
        obtain ⟨ts2, hts2, rfl⟩ := h
        obtain ⟨hcon, hle, hret, hcss, hlen, _⟩ := next_token_spec t iu tok t2 hr hl hnt
        have ih2 := ih t2 iu ts2 (hret.trans hr) (by rw [hlen, hcss, hl]) hts2
        rw [concat_contents, ih2, hcss, hcon]
        exact take_drop_append t.css t.pos t2.pos hle

/-! ## Claim theorems -/

/-- C2: on input `/* abc` (an unterminated comment), a strict-mode scanner
(`ignore_errors` false, `ignore_unclosed` false) fails with the
unclosed-comment error at the comment's start offset 0 and produces no
token; with either lenient flag set, the scan yields exactly one `comment`
token with content `/* abc` (spanning to end of input, offsets 0 and 6),
after which `end_of_file` is true. -/
theorem c2_theorem (ig iu : Bool) (h : ig = true ∨ iu = true) :
    next_token (Tokenizer.new "/* abc".data false) false =
      .error (.unclosed "comment" 0) ∧
    tokenize_fuel 2 (Tokenizer.new "/* abc".data ig) iu =
      some [⟨"comment", "/* abc".data, some 0, some 6⟩] := by
  refine ⟨rfl, ?_⟩
  rcases h with rfl | rfl
  · rfl
  · cases ig <;> rfl

theorem c2_theorem_witness :
    (true = true ∨ false = true) ∧
    (next_token (Tokenizer.new "/* abc".data false) false =
        .error (.unclosed "comment" 0) ∧
      tokenize_fuel 2 (Tokenizer.new "/* abc".data true) false =
        some [⟨"comment", "/* abc".data, some 0, some 6⟩]) :=
  ⟨Or.inl rfl, c2_theorem true false (Or.inl rfl)⟩

/-- C3: `url(foo.png)` tokenizes as the word `url` followed by a single
`brackets` token with content `(foo.png)`; `url("foo.png")` instead yields
the word `url`, a bare `(` token, a `string` token `"foo.png"`, and a bare
`)` token, because the character after `(` is a quote. -/
theorem c3_theorem :
    tokenize_fuel 3 (Tokenizer.new "url(foo.png)".data false) false =
      some [⟨"word", "url".data, some 0, some 2⟩,
            ⟨"brackets", "(foo.png)".data, some 3, some 11⟩] ∧
    tokenize_fuel 5 (Tokenizer.new "url(\"foo.png\")".data false) false =
      some [⟨"word", "url".data, some 0, some 2⟩,
            ⟨"(", ['('], some 3, none⟩,
            ⟨"string", "\"foo.png\"".data, some 4, some 12⟩,
            ⟨")", [')'], some 13, none⟩] :=
  ⟨rfl, rfl⟩

/-- C4: for every scanner state and every token, `back` followed by
`next_token` returns exactly that token together with the original state
(so the replay is delivered ahead of any fresh scan and the cursor
position is unchanged by the round trip). -/
theorem c4_theorem (t : Tokenizer) (tk : Token) (iu : Bool) :
    next_token (t.back tk) iu = .ok (tk, t) ∧
    (t.back tk).position = t.position :=
  ⟨rfl, rfl⟩

/-- C7: on input `a/ `, the first `next_token` call emits the word `a`,
excluding the trailing `/` (the claim's back-up behaviour), but the next
call does not re-scan the `/` as its own token: it emits an empty `word`
token and leaves the cursor at position 1, so the scanner makes no
progress (and loops forever emitting empty words). -/
theorem c7_theorem :
    next_token (Tokenizer.new "a/ ".data false) false =
      .ok (⟨"word", ['a'], some 0, some 0⟩,
        ⟨"a/ ".data, false, ⟨"word", ['a'], some 0, some 0⟩, 3, 1,
          [⟨"word", ['a'], some 0, some 0⟩], []⟩) ∧
    next_token ⟨"a/ ".data, false, ⟨"word", ['a'], some 0, some 0⟩, 3, 1,
        [⟨"word", ['a'], some 0, some 0⟩], []⟩ false =
      .ok (⟨"word", [], some 1, some 0⟩,
        ⟨"a/ ".data, false, ⟨"word", [], some 1, some 0⟩, 3, 1,
          [⟨"word", [], some 1, some 0⟩, ⟨"word", ['a'], some 0, some 0⟩], []⟩) :=
  ⟨rfl, rfl⟩

/-- C10: when `end_of_file` holds (empty pushback list and cursor at or
past the length), `next_token` does not return a token: the word-end
search would start past the end of the text, which aborts the process.
Callers must check `end_of_file` first. -/
theorem c10_theorem (t : Tokenizer) (iu : Bool)
    (hl : t.length = t.css.length) (heof : t.end_of_file = true) :
    next_token t iu = .error .abort := by
  rw [Tokenizer.end_of_file] at heof
  simp only [Bool.and_eq_true, List.isEmpty_eq_true, decide_eq_true_eq] at heof
  obtain ⟨hr, hp⟩ := heof
  have hc : char_code_at t.css t.pos = '\x00' := char_code_at_of_ge (by omega)
  rw [next_token_of_empty t iu hr, next_fresh, hc]
  show comment_or_word t iu = .error .abort
  rw [comment_or_word,
    if_neg (fun hand => absurd (hc ▸ hand.1) (by decide)),
    word_token, if_pos (by omega)]

theorem c10_theorem_witness :
    (Tokenizer.new [] false).length = (Tokenizer.new [] false).css.length ∧
    (Tokenizer.new [] false).end_of_file = true ∧
    next_token (Tokenizer.new [] false) false = .error .abort :=
  ⟨rfl, rfl, c10_theorem (Tokenizer.new [] false) false rfl rfl⟩

/-- C5 counterexample: the input ` \r` is a single maximal whitespace run,
yet the scanner emits two `space` tokens for it (the run-continuation
loop does not include carriage return), refuting "exactly one `space`
token per maximal run". -/
theorem c5_counterexample :
    tokenize_fuel 3 (Tokenizer.new " \r".data false) false =
      some [⟨"space", [' '], none, none⟩, ⟨"space", ['\r'], none, none⟩] :=
  rfl

/-- C6 counterexample: on `@a:b` the emitted at-word is `@a:b`, not `@a`:
`:` is not in the code's `RE_AT_END` delimiter class, refuting the claimed
delimiter set (which includes `:` and `@`). -/
theorem c6_counterexample :
    tokenize_fuel 2 (Tokenizer.new "@a:b".data false) false =
      some [⟨"at-word", "@a:b".data, some 0, some 3⟩] :=
  rfl

/-- C8 counterexample: scanning `url(a` in lenient mode, the unterminated
raw span does not degrade to a bare `(` token with the cursor reset; the
scanner emits a token of kind `brackets` with content `(` and end offset 3,
advances past the parenthesis, and goes on to scan `a`. -/
theorem c8_counterexample :
    tokenize_fuel 4 (Tokenizer.new "url(a".data true) false =
      some [⟨"word", "url".data, some 0, some 2⟩,
            ⟨"brackets", ['('], some 3, some 3⟩,
            ⟨"word", ['a'], some 4, some 4⟩] :=
  rfl

/-- C9 counterexample: after fully scanning `a b` the context store holds
two word tokens, refuting "the cache holds at most the single most recent
word-like token". -/
theorem c9_counterexample :
    (run_steps 3 (Tokenizer.new "a b".data false) false).map Tokenizer.buffer =
      some [⟨"word", ['b'], some 2, some 2⟩, ⟨"word", ['a'], some 0, some 0⟩] :=
  rfl

/-- C5 (amended): when `next_token` scans at a whitespace character
(space, newline, tab, carriage return, or the code's FEED constant
U+0012), it consumes the maximal following run of characters from the
continuation set, which is space, newline, tab and U+0012 — carriage
return is *not* in the continuation set, so a CR inside a run starts a new
`space` token.  The emitted token is a single `space` token carrying no
offsets, whose content is the consumed run, and the cursor advances past
the run. -/
theorem c5_theorem (t : Tokenizer) (iu : Bool) (hr : t.returned = [])
    (hc : char_code_at t.css t.pos = '\n' ∨ char_code_at t.css t.pos = ' ' ∨
      char_code_at t.css t.pos = '\t' ∨ char_code_at t.css t.pos = '\r' ∨
      char_code_at t.css t.pos = '\u0012') :
    ∃ e, t.pos < e ∧
      (∀ k, t.pos < k → k < e → is_space_cont (char_code_at t.css k) = true) ∧
      is_space_cont (char_code_at t.css e) = false ∧
      next_token t iu =
        .ok (⟨"space", (t.css.take e).drop t.pos, none, none⟩,
          { t with current_token := ⟨"space", (t.css.take e).drop t.pos, none, none⟩,
                   pos := e }) := by
  have hge := space_run_end_ge t.css (t.pos + 1)
  refine ⟨space_run_end t.css (t.pos + 1), by omega, ?_, ?_, ?_⟩
  · intro k hk1 hk2
    exact space_run_end_cont t.css (t.pos + 1) k (by omega) hk2
  · exact space_run_end_stop t.css (t.pos + 1)
  · rw [next_token_of_empty t iu hr, next_fresh, if_pos hc]
    simp only [space_token]
    have h1 : space_run_end t.css (t.pos + 1) - 1 + 1 = space_run_end t.css (t.pos + 1) := by
      omega
    rw [h1]

theorem c5_theorem_witness :
    (Tokenizer.new " \t x".data false).returned = [] ∧
    (char_code_at (Tokenizer.new " \t x".data false).css
        (Tokenizer.new " \t x".data false).pos = '\n' ∨
      char_code_at (Tokenizer.new " \t x".data false).css
        (Tokenizer.new " \t x".data false).pos = ' ' ∨
      char_code_at (Tokenizer.new " \t x".data false).css
        (Tokenizer.new " \t x".data false).pos = '\t' ∨
      char_code_at (Tokenizer.new " \t x".data false).css
        (Tokenizer.new " \t x".data false).pos = '\r' ∨
      char_code_at (Tokenizer.new " \t x".data false).css
        (Tokenizer.new " \t x".data false).pos = '\u0012') ∧
    (∃ e, (Tokenizer.new " \t x".data false).pos < e ∧
      (∀ k, (Tokenizer.new " \t x".data false).pos < k → k < e →
        is_space_cont (char_code_at (Tokenizer.new " \t x".data false).css k) = true) ∧
      is_space_cont (char_code_at (Tokenizer.new " \t x".data false).css e) = false ∧
      next_token (Tokenizer.new " \t x".data false) false =
        .ok (⟨"space", ((Tokenizer.new " \t x".data false).css.take e).drop
              (Tokenizer.new " \t x".data false).pos, none, none⟩,
          { Tokenizer.new " \t x".data false with
              current_token :=
                ⟨"space", ((Tokenizer.new " \t x".data false).css.take e).drop
                  (Tokenizer.new " \t x".data false).pos, none, none⟩,
              pos := e })) :=
  ⟨rfl, Or.inr (Or.inl rfl),
    c5_theorem (Tokenizer.new " \t x".data false) false rfl (Or.inr (Or.inl rfl))⟩

theorem at_token_eq_some (t : Tokenizer) (j : Nat)
    (hs : scan_idx re_at_end_char (t.css.drop (t.pos + 1)) (t.pos + 1) = some j)
    (hj : t.pos + 1 ≤ j) :
    at_token t =
      (⟨"at-word", (t.css.take j).drop t.pos, some t.pos, some (j - 1)⟩,
        { t with current_token := ⟨"at-word", (t.css.take j).drop t.pos, some t.pos, some (j - 1)⟩,
                 pos := j }) := by
  simp only [at_token, re_at_end_search, hs, Option.map_some']
  have h1 : j + 1 - 2 + 1 = j := by omega
  have h2 : j + 1 - 2 = j - 1 := by omega
  rw [h1, h2, sub_string_eq]

theorem at_token_eq_none (t : Tokenizer)
    (hs : scan_idx re_at_end_char (t.css.drop (t.pos + 1)) (t.pos + 1) = none)
    (hl : t.length = t.css.length) (h1 : 1 ≤ t.css.length) :
    at_token t =
      (⟨"at-word", (t.css.take t.css.length).drop t.pos, some t.pos, some (t.css.length - 1)⟩,
        { t with
            current_token :=
              ⟨"at-word", (t.css.take t.css.length).drop t.pos, some t.pos,
                some (t.css.length - 1)⟩,
            pos := t.css.length }) := by
  simp only [at_token, re_at_end_search, hs, Option.map_none']
  rw [hl]
  have h2 : t.css.length - 1 + 1 = t.css.length := by omega
  rw [h2, sub_string_eq]

/-- C6 (amended): scanning at `@` emits an `at-word` token spanning from
the `@` up to (not including) the first following character of the code's
`RE_AT_END` class — whitespace (tab, newline, U+0012, CR, space), double
or single quote, `#`, parentheses, square brackets, curly braces, `;`, a
lone `/`, or `\` — with `:` and `@` *not* acting as delimiters and a
lone `/` sufficing (no `*` needed).  If no such character occurs, the
token extends to end of input.  The cursor lands on the delimiter. -/
theorem c6_theorem (t : Tokenizer) (iu : Bool) (hr : t.returned = [])
    (hl : t.length = t.css.length)
    (hc : char_code_at t.css t.pos = '@') :
    ∃ e, t.pos < e ∧ e ≤ t.css.length ∧
      (∀ k, t.pos < k → k < e → re_at_end_char (char_code_at t.css k) = false) ∧
      (e = t.css.length ∨ re_at_end_char (char_code_at t.css e) = true) ∧
      next_token t iu =
        .ok (⟨"at-word", (t.css.take e).drop t.pos, some t.pos, some (e - 1)⟩,
          { t with
              current_token :=
                ⟨"at-word", (t.css.take e).drop t.pos, some t.pos, some (e - 1)⟩,
              pos := e }) := by
  have hlt := char_code_at_pos_lt hc (by decide)
  have hnt : next_token t iu = .ok (at_token t) := by
    rw [next_token_of_empty t iu hr, next_fresh, hc]
    rfl
  cases hs : scan_idx re_at_end_char (t.css.drop (t.pos + 1)) (t.pos + 1) with
  | some j =>
    have hge := scan_idx_ge _ _ _ _ hs
    have hlt2 := scan_idx_lt _ _ _ _ hs
    have hdl := List.length_drop (t.pos + 1) t.css
    refine ⟨j, by omega, by omega, ?_, ?_, ?_⟩
    · intro k hk1 hk2
      exact scan_idx_drop_mid _ t.css (t.css.length - (t.pos + 1)) (t.pos + 1) j
        (Nat.le_refl _) hs k (by omega) hk2
    · exact Or.inr (scan_idx_drop_found _ t.css (t.css.length - (t.pos + 1))
        (t.pos + 1) j (Nat.le_refl _) hs)
    · rw [hnt, at_token_eq_some t j hs hge]
  | none =>
    refine ⟨t.css.length, by omega, Nat.le_refl _, ?_, Or.inl rfl, ?_⟩
    · intro k hk1 hk2
      exact scan_idx_drop_none _ t.css (t.css.length - (t.pos + 1)) (t.pos + 1)
        (Nat.le_refl _) hs k (by omega) hk2
    · rw [hnt, at_token_eq_none t hs hl (by omega)]

theorem c6_theorem_witness :
    (Tokenizer.new "@media x".data false).returned = [] ∧
    char_code_at (Tokenizer.new "@media x".data false).css
      (Tokenizer.new "@media x".data false).pos = '@' ∧
    (∃ e, (Tokenizer.new "@media x".data false).pos < e ∧
      e ≤ (Tokenizer.new "@media x".data false).css.length ∧
      (∀ k, (Tokenizer.new "@media x".data false).pos < k → k < e →
        re_at_end_char (char_code_at (Tokenizer.new "@media x".data false).css k) = false) ∧
      (e = (Tokenizer.new "@media x".data false).css.length ∨
        re_at_end_char (char_code_at (Tokenizer.new "@media x".data false).css e) = true) ∧
      next_token (Tokenizer.new "@media x".data false) false =
        .ok (⟨"at-word",
            (((Tokenizer.new "@media x".data false).css.take e)).drop
              (Tokenizer.new "@media x".data false).pos,
            some (Tokenizer.new "@media x".data false).pos, some (e - 1)⟩,
          { Tokenizer.new "@media x".data false with
              current_token :=
                ⟨"at-word",
                  (((Tokenizer.new "@media x".data false).css.take e)).drop
                    (Tokenizer.new "@media x".data false).pos,
                  some (Tokenizer.new "@media x".data false).pos, some (e - 1)⟩,
              pos := e })) :=
  ⟨rfl, rfl, c6_theorem (Tokenizer.new "@media x".data false) false rfl rfl rfl⟩

/-- C8 (amended): when the most recent buffered word is `url`, the
character after `(` is not a quote or whitespace, and no `)` occurs in the
rest of the source, then in lenient mode the scanner emits a one-character
token of kind `brackets` with content `(` (start and end offsets both at
the parenthesis) and advances the cursor one character past the `(` — it
does not emit a bare `(`-kind token and does not leave the cursor where it
was; in strict mode it fails with the unclosed-bracket error at the
current position. -/
theorem c8_theorem (t : Tokenizer) (iu : Bool) (b : Token) (rest : List Token)
    (hr : t.returned = []) (hb : t.buffer = b :: rest) (hbc : b.content = "url".data)
    (hc : char_code_at t.css t.pos = '(')
    (hn : char_code_at t.css (t.pos + 1) ≠ '\'' ∧ char_code_at t.css (t.pos + 1) ≠ '"' ∧
      char_code_at t.css (t.pos + 1) ≠ ' ' ∧ char_code_at t.css (t.pos + 1) ≠ '\n' ∧
      char_code_at t.css (t.pos + 1) ≠ '\t' ∧ char_code_at t.css (t.pos + 1) ≠ '\u0012' ∧
      char_code_at t.css (t.pos + 1) ≠ '\r')
    (hnone : index_of_char t.css ')' (t.pos + 1) = none) :
    (t.ignore = true ∨ iu = true →
      next_token t iu =
        .ok (⟨"brackets", ['('], some t.pos, some t.pos⟩,
          { t with current_token := ⟨"brackets", ['('], some t.pos, some t.pos⟩,
                   buffer := rest, pos := t.pos + 1 })) ∧
    (t.ignore = false → iu = false →
      next_token t iu = .error (.unclosed "bracket" t.pos)) := by
  have hlt := char_code_at_pos_lt hc (by decide)
  have hnt : next_token t iu = paren_core t iu b.content rest := by
    rw [next_token_of_empty t iu hr, next_fresh, hc]
    show paren_token t iu = _
    rw [paren_token, hb]
  have hcs : close_search t.css ')' t.pos = none := close_search_none hnone
  have hcond : b.content = ['u', 'r', 'l'] ∧ char_code_at t.css (t.pos + 1) ≠ '\'' ∧
      char_code_at t.css (t.pos + 1) ≠ '"' ∧ char_code_at t.css (t.pos + 1) ≠ ' ' ∧
      char_code_at t.css (t.pos + 1) ≠ '\n' ∧ char_code_at t.css (t.pos + 1) ≠ '\t' ∧
      char_code_at t.css (t.pos + 1) ≠ '\u0012' ∧ char_code_at t.css (t.pos + 1) ≠ '\r' :=
    ⟨hbc, hn.1, hn.2.1, hn.2.2.1, hn.2.2.2.1, hn.2.2.2.2.1, hn.2.2.2.2.2.1, hn.2.2.2.2.2.2⟩
  constructor
  · intro hlen
    rw [hnt]
    simp only [paren_core, if_pos hcond, hcs, if_pos hlen]
    rw [sub_string_eq, take_drop_singleton hlt, hc]
  · intro h1 h2
    rw [hnt]
    simp only [paren_core, if_pos hcond, hcs]
    rw [if_neg (by simp [h1, h2])]

theorem c8_theorem_witness :
    c8_state.returned = [] ∧
    c8_state.buffer = ⟨"word", "url".data, some 0, some 2⟩ :: [] ∧
    char_code_at c8_state.css c8_state.pos = '(' ∧
    index_of_char c8_state.css ')' (c8_state.pos + 1) = none ∧
    ((c8_state.ignore = true ∨ false = true →
        next_token c8_state false =
          .ok (⟨"brackets", ['('], some c8_state.pos, some c8_state.pos⟩,
            { c8_state with
                current_token := ⟨"brackets", ['('], some c8_state.pos, some c8_state.pos⟩,
                buffer := [], pos := c8_state.pos + 1 })) ∧
      (c8_state.ignore = false → false = false →
        next_token c8_state false = .error (.unclosed "bracket" c8_state.pos))) :=
  ⟨rfl, rfl, rfl, rfl,
    c8_theorem c8_state false ⟨"word", "url".data, some 0, some 2⟩ [] rfl rfl rfl rfl
      (by refine ⟨?_, ?_, ?_, ?_, ?_, ?_, ?_⟩ <;> decide) rfl⟩

/-- C9 (amended): the context store is a stack, not a single slot — one
entry is pushed for every token produced by the generic-word branch (and
only those: backslash-escape words and replayed tokens are never
recorded), so after any fresh generic-word scan the top of the stack is
exactly the token just produced, on top of all earlier entries. -/
theorem c9_theorem (t : Tokenizer) (iu : Bool) (tok : Token) (t' : Tokenizer)
    (hr : t.returned = []) (hg : generic_word_start t)
    (h : next_token t iu = .ok (tok, t')) :
    tok.kind = "word" ∧ t'.buffer = tok :: t.buffer := by
  obtain ⟨h1, h2, h3, h4, h5, h6, h7, h8, h9, h10, h11, h12, h13⟩ := hg
  rw [next_token_of_empty t iu hr, next_fresh] at h
  rw [if_neg h1, if_neg h2, if_neg h3, if_neg h4, if_neg h5, if_neg h6, if_neg h7,
    if_neg h8, if_neg h9, if_neg h10, if_neg h11, if_neg h12] at h
  rw [comment_or_word, if_neg h13, word_token] at h
  split at h
  · exact absurd h (by simp)
  next hple =>
    split at h
    next mend hm =>
      split at h
      · split at h
        · exact absurd h (by simp)
        next h3 =>
          simp only [word_finish] at h
          injection h with h
          injection h with htok hstate
          subst htok hstate
          exact ⟨rfl, rfl⟩
      · simp only [word_finish] at h
        injection h with h
        injection h with htok hstate
        subst htok hstate
        exact ⟨rfl, rfl⟩
    next hm =>
      simp only [word_finish] at h
      injection h with h
      injection h with htok hstate
      subst htok hstate
      exact ⟨rfl, rfl⟩

theorem c9_theorem_witness :
    (Tokenizer.new "ab".data false).returned = [] ∧
    generic_word_start (Tokenizer.new "ab".data false) ∧
    next_token (Tokenizer.new "ab".data false) false =
      .ok (⟨"word", ['a', 'b'], some 0, some 1⟩,
        ⟨"ab".data, false, ⟨"word", ['a', 'b'], some 0, some 1⟩, 2, 2,
          [⟨"word", ['a', 'b'], some 0, some 1⟩], []⟩) ∧
    ((⟨"word", ['a', 'b'], some 0, some 1⟩ : Token).kind = "word" ∧
      (⟨"ab".data, false, ⟨"word", ['a', 'b'], some 0, some 1⟩, 2, 2,
          [⟨"word", ['a', 'b'], some 0, some 1⟩], []⟩ : Tokenizer).buffer =
        ⟨"word", ['a', 'b'], some 0, some 1⟩ :: (Tokenizer.new "ab".data false).buffer) :=
  ⟨rfl, by simp only [generic_word_start]; refine ⟨?_, ?_, ?_, ?_, ?_, ?_, ?_, ?_, ?_, ?_, ?_, ?_, ?_⟩ <;> decide,
    rfl,
    c9_theorem (Tokenizer.new "ab".data false) false _ _ rfl
      (by simp only [generic_word_start]; refine ⟨?_, ?_, ?_, ?_, ?_, ?_, ?_, ?_, ?_, ?_, ?_, ?_, ?_⟩ <;> decide)
      rfl⟩

/-- C1 (amended): for every source text and mode, if repeated `next_token`
calls reach `end_of_file` (the driver returns a token list within some
fuel), then concatenating the contents of the emitted tokens, in emission
order, reproduces the source text exactly. -/
theorem c1_theorem (css : List Char) (ig iu : Bool) (fuel : Nat) (ts : List Token)
    (h : tokenize_fuel fuel (Tokenizer.new css ig) iu = some ts) :
    concat_contents ts = css := by
  have hmain := tokenize_fuel_content fuel (Tokenizer.new css ig) iu ts rfl rfl h
  simpa using hmain

theorem c1_theorem_witness :
    tokenize_fuel 7 (Tokenizer.new "a\x7bcolor:red\x7d".data false) false =
      some [⟨"word", ['a'], some 0, some 0⟩,
            ⟨"\x7b", ['\x7b'], some 1, none⟩,
            ⟨"word", ['c', 'o', 'l', 'o', 'r'], some 2, some 6⟩,
            ⟨":", [':'], some 7, none⟩,
            ⟨"word", ['r', 'e', 'd'], some 8, some 10⟩,
            ⟨"\x7d", ['\x7d'], some 11, none⟩] ∧
    concat_contents
        [⟨"word", ['a'], some 0, some 0⟩,
         ⟨"\x7b", ['\x7b'], some 1, none⟩,
         ⟨"word", ['c', 'o', 'l', 'o', 'r'], some 2, some 6⟩,
         ⟨":", [':'], some 7, none⟩,
         ⟨"word", ['r', 'e', 'd'], some 8, some 10⟩,
         ⟨"\x7d", ['\x7d'], some 11, none⟩] = "a\x7bcolor:red\x7d".data :=
  ⟨rfl, c1_theorem "a\x7bcolor:red\x7d".data false false 7 _ rfl⟩

theorem c1_loop_step (ct : Token) (buf : List Token) :
    next_token ⟨"a/ ".data, false, ct, 3, 1, buf, []⟩ false =
      .ok (⟨"word", [], some 1, some 0⟩,
        ⟨"a/ ".data, false, ⟨"word", [], some 1, some 0⟩, 3, 1,
          ⟨"word", [], some 1, some 0⟩ :: buf, []⟩) :=
  rfl

theorem c1_loop_none :
    ∀ (fuel : Nat) (ct : Token) (buf : List Token),
      tokenize_fuel fuel ⟨"a/ ".data, false, ct, 3, 1, buf, []⟩ false = none := by
  intro fuel
  induction fuel with
  | zero => intro ct buf; rfl
  | succ fuel ih =>
    intro ct buf
    rw [tokenize_fuel]
    rw [if_neg (by simp [Tokenizer.end_of_file])]
    rw [c1_loop_step ct buf]
    simp only [ih, Option.map_none']

/-- C1 counterexample: on the input `a/ ` the claim's process never
completes — after emitting the word `a` the scanner loops forever at
position 1 emitting empty `word` tokens, so `end_of_file` never becomes
true and no amount of fuel makes the driver return a token list. -/
theorem c1_counterexample :
    ¬ ∃ (fuel : Nat) (ts : List Token),
        tokenize_fuel fuel (Tokenizer.new "a/ ".data false) false = some ts := by
  rintro ⟨fuel, ts, h⟩
  cases fuel with
  | zero =>
    rw [show tokenize_fuel 0 (Tokenizer.new "a/ ".data false) false = none from rfl] at h
    exact Option.noConfusion h
  | succ f =>
    rw [show tokenize_fuel (f + 1) (Tokenizer.new "a/ ".data false) false =
        (tokenize_fuel f ⟨"a/ ".data, false, ⟨"word", ['a'], some 0, some 0⟩, 3, 1,
            [⟨"word", ['a'], some 0, some 0⟩], []⟩ false).map
          (⟨"word", ['a'], some 0, some 0⟩ :: ·) from rfl] at h
    rw [c1_loop_none f _ _] at h
    exact Option.noConfusion h
